import Mathlib

/-!
Shallow embedding of the group-shuffle incremental scoring cache
(src/model.rs, src/action.rs, src/cache.rs).

Modelling conventions:
* `Score` (Rust `f64`, used only for exact additive bookkeeping of penalty
  values) is modelled as `ℚ`.
* `Id` (Rust `u32`) is `ℕ`: ids are only ever compared for equality and put
  into pair-sets, no arithmetic is performed on them.
* `TagCounter` (Rust `HashMap<Tag, usize>` where every read treats a missing
  key as count 0) is modelled as `Multiset Tag`; Rust's `Sub` leaves
  zero-count entries in the map, which are observationally identical to
  absent keys (`Constraint::check` reads via `.get(tag).unwrap_or(0)`).
* `RelationPenalty.scores` (Rust `HashMap<BTreeSet<Id>, Score>`) is a
  function `Finset ℕ → Option ℚ`: `BTreeSet::from([a, b])` is `{a, b}`.
* Rust functions that can panic or fail to terminate return `Option`:
  `none` models a panic (`unwrap` on `None`) or non-termination.
* `TableCache::act` mutates `self` even on some error paths (the `Move` arm
  removes the member from the source group before checking the target group
  index), so `act` returns the final state alongside the `Result`.
-/

namespace GroupShuffle

abbrev Id := ℕ
abbrev Tag := String
abbrev Score := ℚ
abbrev Index := ℕ

/-- `model.rs` `entity::Member`: an id plus a set of tag strings. -/
structure Member where
  id : Id
  tags : Finset Tag
deriving DecidableEq

/-- `model.rs` `group::Group`: an ordered sequence of members. -/
structure Group where
  members : List Member

/-- `model.rs` `group::Table`: an ordered sequence of groups. -/
structure Table where
  groups : List Group

/-- `model.rs` `condition::RelationPenalty`: explicit scores for unordered
id pairs plus a default for unmapped pairs. -/
structure RelationPenalty where
  scores : Finset Id → Option Score
  default : Score

/-- `RelationPenalty::get_pair`: look up `{a, b}`, falling back to the
default. -/
def RelationPenalty.get_pair (p : RelationPenalty) (a b : Id) : Score :=
  (p.scores {a, b}).getD p.default

/-- `model.rs` `condition::Range`. -/
inductive Range where
  | Ratio (min max : ℚ)
  | Count (min max : ℕ)

/-- `model.rs` `condition::Constraint`: a map tag → range, modelled as an
association list (HashMap iteration order is irrelevant: `check` produces a
set). -/
structure Constraint where
  ranges : List (Tag × Range)

/-- `model.rs` `condition::Condition`. -/
structure Condition where
  penalty : RelationPenalty
  constraint : Constraint

/-- `action.rs` `Position`. -/
structure Position where
  group_index : Index
  member_index : Index
deriving DecidableEq

/-- `action.rs` `Action`. The `Move` variant follows its actual use in
`cache.rs` (`source_position` plus a bare `target_group` index), which is
the form the `simulate`/`act` implementations and the tests destructure. -/
inductive Action where
  | Swap (position1 position2 : Position)
  | Move (source_position : Position) (target_group : Index)
  | Add (member : Member) (group_index : Index)
  | Remove (position : Position)

/-- `action.rs` `ActionError`. -/
inductive ActionError where
  | InvalidPosition
deriving DecidableEq

/-- `action.rs` `ActionResult`. -/
inductive ActionResult where
  | ScoreDiff (s : Score)
  | UnsatisfiedScoreDiff (s : Score)
  | Failed (errors : List ActionError)
deriving DecidableEq

/-- `action.rs` `impl Add for ActionResult`, made total with a fuel
parameter: the Rust body matches four operand shapes directly and otherwise
recurses on the swapped operands, so a call that reaches fuel 0 here is a
call that never terminates in Rust (each recursive step consumes one fuel
and swaps the operands, making no progress on unmatched shapes). -/
def ActionResult.addFuel : ℕ → ActionResult → ActionResult → Option ActionResult
  | 0, _, _ => none
  | _ + 1, .ScoreDiff s1, .ScoreDiff s2 => some (.ScoreDiff (s1 + s2))
  | _ + 1, .ScoreDiff s1, .UnsatisfiedScoreDiff s2 =>
      some (.UnsatisfiedScoreDiff (s1 + s2))
  | _ + 1, .UnsatisfiedScoreDiff s1, .UnsatisfiedScoreDiff s2 =>
      some (.UnsatisfiedScoreDiff (s1 + s2))
  | _ + 1, .Failed e1, .Failed e2 => some (.Failed (e1 ++ e2))
  | n + 1, x, y => ActionResult.addFuel n y x

/-- The `+` of `action.rs` as used by `TableCache::simulate`.  Fuel 2 is
exact: every operand pair the Rust code resolves needs at most one swap of
the operands, and every pair it recurses on forever (one operand `Failed`,
the other not) is `none` already at fuel 2, so `combine x y = none` holds
exactly when `x + y` does not terminate in Rust. -/
def ActionResult.combine (x y : ActionResult) : Option ActionResult :=
  ActionResult.addFuel 2 x y

/-- Multiset tally of all tags across a member list (`cache.rs` builds the
same thing by flat-mapping tags into a `Vec` and converting to
`TagCounter`). -/
def tagTally (members : List Member) : Multiset Tag :=
  (members.map fun m => m.tags.val).sum

/-- The inner pairwise sum of `Group::calc_score` (`cache.rs` lines 12-19):
sum `get_pair` over all unordered pairs, `combinations(2)` order. -/
def pairScore (p : RelationPenalty) : List Member → Score
  | [] => 0
  | m :: rest =>
      (rest.map fun m2 => p.get_pair m.id m2.id).sum + pairScore p rest

/-- `Group::calc_score`. -/
def Group.calc_score (g : Group) (p : RelationPenalty) : Score :=
  pairScore p g.members

/-- The per-range violation test inside `Constraint::check`: `true` when the
count falls outside the range (Ratio bounds scaled by `n_members`, Count
bounds compared directly). -/
def Range.violated : Range → ℕ → ℕ → Bool
  | .Ratio mn mx, count, n =>
      decide ((count : ℚ) < mn * (n : ℚ)) || decide ((count : ℚ) > mx * (n : ℚ))
  | .Count mn mx, count, _ => decide (count < mn) || decide (count > mx)

/-- `Constraint::check` (`cache.rs` lines 59-86): collect every configured
tag whose count is out of range into a set; `Ok` iff that set is empty. -/
def Constraint.check (c : Constraint) (tagcounts : Multiset Tag)
    (n_members : ℕ) : Except (Finset Tag) Unit :=
  let error_tags : Finset Tag :=
    ((c.ranges.filter fun pr =>
        pr.2.violated (tagcounts.count pr.1) n_members).map Prod.fst).toFinset
  if error_tags = ∅ then .ok () else .error error_tags

/-- `cache.rs` `GroupCache`. -/
structure GroupCache where
  members : List Member
  tagcounts : Multiset Tag
  penalty_score : Score
deriving DecidableEq

/-- `GroupCache::create`. -/
def GroupCache.create (g : Group) (p : RelationPenalty) : GroupCache :=
  { members := g.members
    tagcounts := tagTally g.members
    penalty_score := g.calc_score p }

/-- `GroupCache::get_ids`: the `HashSet` of current member ids. -/
def GroupCache.get_ids (g : GroupCache) : Finset Id :=
  (g.members.map Member.id).toFinset

/-- `GroupCache::simulate_add`. -/
def GroupCache.simulate_add (g : GroupCache) (member : Member)
    (condition : Condition) : ActionResult :=
  let score := g.get_ids.sum fun i => condition.penalty.get_pair member.id i
  let tagcounts := g.tagcounts + member.tags.val
  match condition.constraint.check tagcounts (g.members.length + 1) with
  | .ok _ => .ScoreDiff score
  | .error _ => .UnsatisfiedScoreDiff score

/-- `GroupCache::simulate_remove`. -/
def GroupCache.simulate_remove (g : GroupCache) (index : Index)
    (condition : Condition) : ActionResult :=
  match g.members[index]? with
  | some member =>
      let tagcounts := g.tagcounts - member.tags.val
      let score := (g.get_ids.filter fun i => i ≠ member.id).sum
        fun i => condition.penalty.get_pair member.id i
      match condition.constraint.check tagcounts (g.members.length - 1) with
      | .ok _ => .ScoreDiff (-score)
      | .error _ => .UnsatisfiedScoreDiff (-score)
  | none => .Failed [.InvalidPosition]

/-- `GroupCache::simulate_swap`. -/
def GroupCache.simulate_swap (g : GroupCache) (index : Index)
    (member : Member) (condition : Condition) : ActionResult :=
  match g.members[index]? with
  | some removed_member =>
      let score := (g.get_ids.filter fun i => i ≠ removed_member.id).sum
        fun i => condition.penalty.get_pair member.id i
          - condition.penalty.get_pair removed_member.id i
      let tagcounts := g.tagcounts + member.tags.val - removed_member.tags.val
      match condition.constraint.check tagcounts g.members.length with
      | .ok _ => .ScoreDiff score
      | .error _ => .UnsatisfiedScoreDiff score
  | none => .Failed [.InvalidPosition]

/-- `GroupCache::add` (`cache.rs` lines 156-163).  The Rust function always
returns `Ok(())`; only the state change is modelled. The new member's
pairwise sum is taken against the ids present before the push. -/
def GroupCache.add (g : GroupCache) (member : Member)
    (condition : Condition) : GroupCache :=
  { members := g.members ++ [member]
    tagcounts := g.tagcounts + member.tags.val
    penalty_score := g.penalty_score
      + g.get_ids.sum fun i => condition.penalty.get_pair member.id i }

/-- `GroupCache::remove` (`cache.rs` lines 165-175): bounds-checked; the
subtracted sum runs over the ids remaining after the removal. -/
def GroupCache.remove (g : GroupCache) (index : Index)
    (condition : Condition) : Except ActionError (Member × GroupCache) :=
  match g.members[index]? with
  | none => .error .InvalidPosition
  | some member =>
      let rest := g.members.eraseIdx index
      .ok (member,
        { members := rest
          tagcounts := g.tagcounts - member.tags.val
          penalty_score := g.penalty_score
            - ((rest.map Member.id).toFinset.sum
                fun i => condition.penalty.get_pair member.id i) })

/-- `GroupCache::swap` (`cache.rs` lines 177-190): remove at `index`,
update the aggregates against the remaining ids, insert the new member back
at the same slot. -/
def GroupCache.swap (g : GroupCache) (index : Index) (member : Member)
    (condition : Condition) : Except ActionError (Member × GroupCache) :=
  match g.members[index]? with
  | none => .error .InvalidPosition
  | some removed_member =>
      let rest := g.members.eraseIdx index
      .ok (removed_member,
        { members := rest.insertIdx index member
          tagcounts := g.tagcounts + member.tags.val - removed_member.tags.val
          penalty_score := g.penalty_score
            + ((rest.map Member.id).toFinset.sum
                fun i => condition.penalty.get_pair member.id i
                  - condition.penalty.get_pair removed_member.id i) })

/-- `cache.rs` `TableCache`. -/
structure TableCache where
  groups : List GroupCache
  penalty_score : Score
deriving DecidableEq

/-- `TableCache::create`. -/
def TableCache.create (t : Table) (p : RelationPenalty) : TableCache :=
  { groups := t.groups.map fun g => GroupCache.create g p
    penalty_score := (t.groups.map fun g => g.calc_score p).sum }

/-- `TableCache::get_member`. -/
def TableCache.get_member (t : TableCache) (position : Position) :
    Option Member :=
  (t.groups[position.group_index]?).bind
    fun g => g.members[position.member_index]?

/-- `TableCache::simulate` (`cache.rs` lines 222-255).  Returns `none` for
a panic (`get_group(...).unwrap()` / `groups.get(to).unwrap()` on `None`)
or a non-terminating `+`; the `Swap` unwraps can in fact never panic
because `get_member` succeeding forces the group lookup to succeed. -/
def TableCache.simulate (t : TableCache) (action : Action)
    (condition : Condition) : Option ActionResult :=
  match action with
  | .Add member group_index =>
      match t.groups[group_index]? with
      | some group => some (group.simulate_add member condition)
      | none => some (.Failed [.InvalidPosition])
  | .Remove position =>
      match t.groups[position.group_index]? with
      | some group => some (group.simulate_remove position.member_index condition)
      | none => some (.Failed [.InvalidPosition])
  | .Swap position1 position2 =>
      match t.get_member position1, t.get_member position2 with
      | some member1, some member2 =>
          match t.groups[position1.group_index]?,
              t.groups[position2.group_index]? with
          | some group1, some group2 =>
              ActionResult.combine
                (group1.simulate_swap position1.member_index member2 condition)
                (group2.simulate_swap position2.member_index member1 condition)
          | _, _ => none
      | _, _ => some (.Failed [.InvalidPosition])
  | .Move from_pos to_group =>
      match t.get_member from_pos, t.groups[from_pos.group_index]? with
      | some member, some group =>
          match t.groups[to_group]? with
          | some to_cache =>
              ActionResult.combine
                (group.simulate_remove from_pos.member_index condition)
                (to_cache.simulate_add member condition)
          | none => none
      | _, _ => some (.Failed [.InvalidPosition])

/-- `TableCache::act` (`cache.rs` lines 257-299).  Returns the `Result`
together with the final state: the `Move` arm removes the member from the
source group before looking up the target group, so an out-of-bounds
`target_group` leaves a mutated table behind the `Err`.  The `Remove` arm
reproduces the source's `self.penalty_score -= group.penalty_score -
prev_score`, in contrast to the `+=` of the other three arms. -/
def TableCache.act (t : TableCache) (action : Action) (condition : Condition) :
    Except ActionError (Option Member) × TableCache :=
  match action with
  | .Add member group_index =>
      match t.groups[group_index]? with
      | none => (.error .InvalidPosition, t)
      | some group =>
          let g' := group.add member condition
          (.ok none,
           { groups := t.groups.set group_index g'
             penalty_score := t.penalty_score
               + (g'.penalty_score - group.penalty_score) })
  | .Remove position =>
      match t.groups[position.group_index]? with
      | none => (.error .InvalidPosition, t)
      | some group =>
          match group.remove position.member_index condition with
          | .error e => (.error e, t)
          | .ok (member, g') =>
              (.ok (some member),
               { groups := t.groups.set position.group_index g'
                 penalty_score := t.penalty_score
                   - (g'.penalty_score - group.penalty_score) })
  | .Swap position1 position2 =>
      match t.get_member position2 with
      | none => (.error .InvalidPosition, t)
      | some member2 =>
          match t.groups[position1.group_index]? with
          | none => (.error .InvalidPosition, t)
          | some group1 =>
              match group1.swap position1.member_index member2 condition with
              | .error e => (.error e, t)
              | .ok (member1, g1') =>
                  let groups1 := t.groups.set position1.group_index g1'
                  match groups1[position2.group_index]? with
                  | none => (.error .InvalidPosition, { t with groups := groups1 })
                  | some group2 =>
                      match group2.swap position2.member_index member1 condition with
                      | .error e => (.error e, { t with groups := groups1 })
                      | .ok (_, g2') =>
                          (.ok none,
                           { groups := groups1.set position2.group_index g2'
                             penalty_score := t.penalty_score
                               + (g1'.penalty_score - group1.penalty_score)
                               + (g2'.penalty_score - group2.penalty_score) })
  | .Move from_pos to_group =>
      match t.groups[from_pos.group_index]? with
      | none => (.error .InvalidPosition, t)
      | some group_from =>
          match group_from.remove from_pos.member_index condition with
          | .error e => (.error e, t)
          | .ok (member, gf') =>
              let groups1 := t.groups.set from_pos.group_index gf'
              match groups1[to_group]? with
              | none => (.error .InvalidPosition, { t with groups := groups1 })
              | some group_to =>
                  let gt' := group_to.add member condition
                  (.ok none,
                   { groups := groups1.set to_group gt'
                     penalty_score := t.penalty_score
                       + (gf'.penalty_score - group_from.penalty_score)
                       + (gt'.penalty_score - group_to.penalty_score) })

/-! ### Concrete fixtures

The configuration of the repository's own test module (`cache.rs`,
`mod tests`): two groups of three members, penalties along the id chain,
and a `Count {1, 2}` constraint on each of the tags a, b, c. -/

/-- The `RelationPenalty` of `condition_fixture`. -/
def penaltyFixture : RelationPenalty where
  scores := fun s =>
    if s = {0, 1} then some 1
    else if s = {1, 2} then some 2
    else if s = {2, 3} then some 3
    else if s = {3, 4} then some 4
    else if s = {4, 5} then some 5
    else if s = {5, 6} then some 6
    else none
  default := 0

/-- The `Constraint` of `condition_fixture`. -/
def constraintFixture : Constraint where
  ranges := [("a", .Count 1 2), ("b", .Count 1 2), ("c", .Count 1 2)]

/-- `condition_fixture`. -/
def conditionFixture : Condition where
  penalty := penaltyFixture
  constraint := constraintFixture

/-- `table_fixture`. -/
def tableFixture : Table where
  groups :=
    [ ⟨[⟨0, {"a"}⟩, ⟨1, {"b"}⟩, ⟨2, {"c"}⟩]⟩,
      ⟨[⟨3, {"a", "b"}⟩, ⟨4, {"a", "c"}⟩, ⟨5, {"b", "c"}⟩]⟩ ]

/-- `tablecache_fixture`. -/
def tablecacheFixture : TableCache :=
  TableCache.create tableFixture penaltyFixture

end GroupShuffle

namespace GroupShuffle

/-- A single-group table (ids 0, 1, 2, no tags) used to exhibit the
behaviour of `simulate` on a same-group `Swap`. -/
def oneGroupTable : Table where
  groups := [⟨[⟨0, ∅⟩, ⟨1, ∅⟩, ⟨2, ∅⟩]⟩]

/-- A condition with no constrained tags (every tag count is feasible). -/
def noConstraintCondition : Condition where
  penalty := penaltyFixture
  constraint := ⟨[]⟩

/-- The cache built from `oneGroupTable`. -/
def oneGroupCache : TableCache :=
  TableCache.create oneGroupTable penaltyFixture

/-! ### Derived notions used in the statements -/

/-- The action addresses a nonexistent group or member through a `Position`
(or through `Add`'s group index): `Add` with `group_index` out of bounds,
`Remove` whose position does not resolve, `Swap` with either position
unresolved, `Move` whose source position does not resolve.  (`Move`'s
`target_group` index is deliberately not part of this predicate.) -/
def invalidAddress (t : TableCache) : Action → Prop
  | .Add _ group_index => t.groups[group_index]? = none
  | .Remove position => t.get_member position = none
  | .Swap position1 position2 =>
      t.get_member position1 = none ∨ t.get_member position2 = none
  | .Move source_position _ => t.get_member source_position = none

/-- The per-group member lists of a table cache. -/
def membersOf (t : TableCache) : List (List Member) :=
  t.groups.map GroupCache.members

/-- Replace the member stored at one position of a per-group member-list
view. -/
def setPos (ls : List (List Member)) (p : Position) (m : Member) :
    List (List Member) :=
  ls.set p.group_index ((ls.getD p.group_index []).set p.member_index m)

/-- Delete the member at one position of a per-group member-list view
(order of the remaining members preserved). -/
def removeAt (ls : List (List Member)) (p : Position) : List (List Member) :=
  ls.set p.group_index ((ls.getD p.group_index []).eraseIdx p.member_index)

/-- Append a member to one group of a per-group member-list view. -/
def appendAt (ls : List (List Member)) (gi : Index) (m : Member) :
    List (List Member) :=
  ls.set gi (ls.getD gi [] ++ [m])

/-- A single group-level mutation, mirroring the three `GroupCache`
mutators `add` / `remove` / `swap`. -/
inductive GroupOp where
  | add (m : Member)
  | remove (i : Index)
  | swap (i : Index) (m : Member)

/-- Run one `GroupOp`; `none` when the underlying mutator fails
(out-of-bounds index). -/
def applyOp (g : GroupCache) (op : GroupOp) (c : Condition) :
    Option GroupCache :=
  match op with
  | .add m => some (g.add m c)
  | .remove i =>
      match g.remove i c with
      | .ok (_, g') => some g'
      | .error _ => none
  | .swap i m =>
      match g.swap i m c with
      | .ok (_, g') => some g'
      | .error _ => none

/-- Run a sequence of `GroupOp`s; `none` as soon as one fails. -/
def applyOps (g : GroupCache) (ops : List GroupOp) (c : Condition) :
    Option GroupCache :=
  match ops with
  | [] => some g
  | op :: rest =>
      match applyOp g op c with
      | none => none
      | some g' => applyOps g' rest c

/-- The incoming member of an `add`/`swap` carries an id not already
present among the members it will join (the spec's data model: members
have unique ids). -/
def freshOk (g : GroupCache) : GroupOp → Bool
  | .add m => decide (m.id ∉ g.members.map Member.id)
  | .remove _ => true
  | .swap i m => decide (m.id ∉ (g.members.eraseIdx i).map Member.id)

/-- `freshOk` holds at every step of a sequence of `GroupOp`s. -/
def freshSeq (c : Condition) (g : GroupCache) : List GroupOp → Bool
  | [] => true
  | op :: rest =>
      freshOk g op &&
        match applyOp g op c with
        | none => true
        | some g' => freshSeq c g' rest

/-- The spec's per-group invariant: the cached penalty score is the
from-scratch pairwise sum over the current members, the cached tag counts
are the from-scratch tally, and member ids are pairwise distinct (the data
model's "unique integer id"). -/
def GroupCache.Wf (g : GroupCache) (p : RelationPenalty) : Prop :=
  g.penalty_score = pairScore p g.members
    ∧ g.tagcounts = tagTally g.members
    ∧ (g.members.map Member.id).Nodup

/-- C9: on the two-group fixture (pairwise penalties along the id chain,
`Count {1, 2}` constraints on tags a, b, c), `create` yields table
penalty_score 12 with group scores 3 and 9; simulating `Remove` at group 0
index 0 yields `UnsatisfiedScoreDiff (-1)`, and at group 1 index 1 yields
`ScoreDiff (-9)`. -/
theorem C9_fixture_scenario :
    tablecacheFixture.penalty_score = 12
      ∧ tablecacheFixture.groups.map GroupCache.penalty_score = [3, 9]
      ∧ tablecacheFixture.simulate (.Remove ⟨0, 0⟩) conditionFixture
          = some (.UnsatisfiedScoreDiff (-1))
      ∧ tablecacheFixture.simulate (.Remove ⟨1, 1⟩) conditionFixture
          = some (.ScoreDiff (-9)) := by
  refine ⟨?_, ?_, ?_, ?_⟩ <;>
  · simp only [tablecacheFixture, TableCache.create, tableFixture,
      TableCache.simulate, List.map_cons, List.map_nil, GroupCache.create]
    try norm_num [GroupCache.simulate_remove, Group.calc_score, pairScore,
      RelationPenalty.get_pair, penaltyFixture, tagTally, conditionFixture,
      constraintFixture, Constraint.check, Range.violated, GroupCache.get_ids]
    try norm_num +decide [Multiset.ndinsert, Finset.filter_insert,
      Finset.filter_singleton, Finset.sum_insert, Finset.sum_singleton,
      Finset.sum_empty, Finset.mem_insert, Finset.mem_singleton]

/-- C1 (failing input): on the fixture, `create` does establish
`TableCache.penalty_score = Σ GroupCache.penalty_score` (12 = 3 + 9), but a
successful `act (Remove ⟨0, 0⟩)` breaks the equality: the `Remove` arm of
`act` runs `penalty_score -= group.penalty_score - prev_score`, driving the
table score up to 13 while the group scores now sum to 11. -/
theorem C1_remove_breaks_table_sum :
    tablecacheFixture.penalty_score
        = (tablecacheFixture.groups.map GroupCache.penalty_score).sum
      ∧ (tablecacheFixture.act (.Remove ⟨0, 0⟩) conditionFixture).1
          = .ok (some ⟨0, {"a"}⟩)
      ∧ (tablecacheFixture.act (.Remove ⟨0, 0⟩) conditionFixture).2.penalty_score
          = 13
      ∧ ((tablecacheFixture.act (.Remove ⟨0, 0⟩) conditionFixture).2.groups.map
          GroupCache.penalty_score).sum = 11 := by
  refine ⟨?_, ?_, ?_, ?_⟩ <;>
  · simp only [tablecacheFixture, TableCache.create, tableFixture,
      TableCache.act, List.map_cons, List.map_nil, GroupCache.create]
    try norm_num [GroupCache.remove, Group.calc_score, pairScore,
      RelationPenalty.get_pair, penaltyFixture, tagTally, conditionFixture,
      constraintFixture, GroupCache.get_ids]
    try norm_num +decide [Multiset.ndinsert, Finset.filter_insert,
      Finset.filter_singleton, Finset.sum_insert, Finset.sum_singleton,
      Finset.sum_empty, Finset.mem_insert, Finset.mem_singleton]

/-- C3 (failing input): on the fixture, `simulate (Remove ⟨1, 1⟩)` returns
`ScoreDiff (-9)`, but the immediately following `act` of the same action
moves the table penalty_score from 12 to 21 — a realized delta of +9, not
-9 (the `Remove` arm of `act` subtracts the group's score change instead of
adding it). -/
theorem C3_remove_realized_delta_mismatch :
    tablecacheFixture.penalty_score = 12
      ∧ tablecacheFixture.simulate (.Remove ⟨1, 1⟩) conditionFixture
          = some (.ScoreDiff (-9))
      ∧ (tablecacheFixture.act (.Remove ⟨1, 1⟩) conditionFixture).1
          = .ok (some ⟨4, {"a", "c"}⟩)
      ∧ (tablecacheFixture.act (.Remove ⟨1, 1⟩) conditionFixture).2.penalty_score
          = 21 := by
  refine ⟨?_, ?_, ?_, ?_⟩ <;>
  · simp only [tablecacheFixture, TableCache.create, tableFixture,
      TableCache.simulate, TableCache.act, List.map_cons, List.map_nil,
      GroupCache.create]
    try norm_num [GroupCache.simulate_remove, GroupCache.remove, Group.calc_score,
      pairScore, RelationPenalty.get_pair, penaltyFixture, tagTally,
      conditionFixture, constraintFixture, Constraint.check, Range.violated,
      GroupCache.get_ids]
    try norm_num +decide [Multiset.ndinsert, Finset.filter_insert,
      Finset.filter_singleton, Finset.sum_insert, Finset.sum_singleton,
      Finset.sum_empty, Finset.mem_insert, Finset.mem_singleton]

/-- C5 (failing input): the `+` of `ActionResult` never returns on
`ScoreDiff 0 + Failed [InvalidPosition]` (or the mirrored pair): for every
recursion budget the fuel-indexed model of the Rust body yields `none`; the
source keeps swapping the two operands and matches neither shape. -/
theorem C5_mixed_failed_add_diverges (fuel : ℕ) :
    ActionResult.addFuel fuel (.ScoreDiff 0) (.Failed [.InvalidPosition]) = none
      ∧ ActionResult.addFuel fuel (.Failed [.InvalidPosition]) (.ScoreDiff 0)
          = none := by
  induction fuel with
  | zero => exact ⟨rfl, rfl⟩
  | succ n ih => exact ⟨ih.2, ih.1⟩

/-- C4 (counterexample): a `Move` whose source position resolves but whose
`target_group` is out of bounds (the fixture has 2 groups, the target is 2)
does not yield `Failed [InvalidPosition]` from `simulate` — the source
`self.groups.get(*to).unwrap()` panics, modelled as `none` — and `act`,
while returning `Err(InvalidPosition)`, has already removed the member from
the source group: group 0 shrinks from 3 members to 2. -/
theorem C4_counterexample :
    tablecacheFixture.simulate (.Move ⟨0, 0⟩ 2) conditionFixture = none
      ∧ (tablecacheFixture.act (.Move ⟨0, 0⟩ 2) conditionFixture).1
          = .error .InvalidPosition
      ∧ (tablecacheFixture.act (.Move ⟨0, 0⟩ 2) conditionFixture).2.groups.map
          (fun g => g.members.length) = [2, 3]
      ∧ tablecacheFixture.groups.map (fun g => g.members.length) = [3, 3] := by
  refine ⟨?_, ?_, ?_, ?_⟩ <;>
  · simp only [tablecacheFixture, TableCache.create, tableFixture,
      TableCache.simulate, TableCache.act, List.map_cons, List.map_nil,
      GroupCache.create]
    try norm_num [GroupCache.remove, TableCache.get_member, Group.calc_score,
      pairScore, RelationPenalty.get_pair, penaltyFixture, tagTally,
      conditionFixture, constraintFixture, GroupCache.get_ids]
    try norm_num +decide [Multiset.ndinsert, Finset.filter_insert,
      Finset.filter_singleton, Finset.sum_insert, Finset.sum_singleton,
      Finset.sum_empty, Finset.mem_insert, Finset.mem_singleton]

/-- C6 (counterexample): for a same-group `Swap` of indices 0 and 1 in the
single group [0, 1, 2] (penalties (0,1) = 1, (1,2) = 2, default 0, no
constraints), `simulate` returns `ScoreDiff (-2)` — the sum of two
independent single-member swap evaluations — while the group's from-scratch
penalty change from exchanging the two members is 0. -/
theorem C6_counterexample :
    oneGroupCache.simulate (.Swap ⟨0, 0⟩ ⟨0, 1⟩) noConstraintCondition
        = some (.ScoreDiff (-2))
      ∧ pairScore penaltyFixture [⟨1, ∅⟩, ⟨0, ∅⟩, ⟨2, ∅⟩]
          - pairScore penaltyFixture [⟨0, ∅⟩, ⟨1, ∅⟩, ⟨2, ∅⟩] = 0
      ∧ (-2 : Score) ≠ 0 := by
  refine ⟨?_, ?_, ?_⟩ <;>
  · try simp only [oneGroupCache, TableCache.create, oneGroupTable,
      TableCache.simulate, List.map_cons, List.map_nil, GroupCache.create]
    try norm_num [GroupCache.simulate_swap, TableCache.get_member,
      ActionResult.combine, ActionResult.addFuel, Group.calc_score, pairScore,
      RelationPenalty.get_pair, penaltyFixture, tagTally,
      noConstraintCondition, Constraint.check, Range.violated,
      GroupCache.get_ids]
    try norm_num +decide [Multiset.ndinsert, Finset.filter_insert,
      Finset.filter_singleton, Finset.sum_insert, Finset.sum_singleton,
      Finset.sum_empty, Finset.mem_insert, Finset.mem_singleton]

/-- C7 (counterexample): on the fixture, the successful
`act (Move ⟨1, 0⟩ 0)` — which displaces member 3 from group 1 into group 0 —
returns `Ok(None)`, not `Ok(Some(member 3))` as the claim states for `Move`
actions. -/
theorem C7_counterexample :
    (tablecacheFixture.act (.Move ⟨1, 0⟩ 0) conditionFixture).1 = .ok none
      ∧ (tablecacheFixture.act (.Move ⟨1, 0⟩ 0) conditionFixture).1
          ≠ .ok (some ⟨3, {"a", "b"}⟩) := by
  have h : (tablecacheFixture.act (.Move ⟨1, 0⟩ 0) conditionFixture).1
      = .ok none := by
    simp only [tablecacheFixture, TableCache.create, tableFixture,
      TableCache.act, List.map_cons, List.map_nil, GroupCache.create]
    norm_num [GroupCache.remove, GroupCache.add, Group.calc_score, pairScore,
      RelationPenalty.get_pair, penaltyFixture, tagTally, conditionFixture,
      constraintFixture, GroupCache.get_ids]
  exact ⟨h, by rw [h]; exact fun hc => by injection hc with hc'; cases hc'⟩

/-- C8: `Constraint.check` returns `Ok(())` exactly when every configured
tag's count (0 if absent) lies within its range — and otherwise returns
`Err` whose error set contains a tag iff it is configured with a range that
its count violates, so unconfigured tags never contribute an error. -/
theorem C8_check_characterization (c : Constraint) (tc : Multiset Tag) (n : ℕ) :
    (c.check tc n = .ok () ↔
      ∀ pr ∈ c.ranges, pr.2.violated (tc.count pr.1) n = false)
      ∧ ∀ s, c.check tc n = .error s →
          ∀ tag, tag ∈ s ↔
            ∃ r, (tag, r) ∈ c.ranges ∧ r.violated (tc.count tag) n = true := by
  by_cases hE :
      ((c.ranges.filter fun pr =>
        pr.2.violated (tc.count pr.1) n).map Prod.fst).toFinset = (∅ : Finset Tag)
  · have hok : c.check tc n = .ok () := by
      simp only [Constraint.check, hE, if_pos]
    have hnil : (c.ranges.filter fun pr =>
        pr.2.violated (tc.count pr.1) n) = [] := by
      have := (List.toFinset_eq_empty_iff _).mp hE
      exact List.map_eq_nil_iff.mp this
    refine ⟨⟨fun _ => ?_, fun _ => hok⟩, fun s hs => ?_⟩
    · intro pr hpr
      have := List.filter_eq_nil_iff.mp hnil pr hpr
      simpa using this
    · rw [hok] at hs; cases hs
  · have herr : c.check tc n = .error
        ((c.ranges.filter fun pr =>
          pr.2.violated (tc.count pr.1) n).map Prod.fst).toFinset := by
      simp only [Constraint.check, hE, if_neg, not_false_iff]
    constructor
    · rw [herr]
      constructor
      · intro hc; cases hc
      · intro hall
        exfalso
        apply hE
        rw [List.toFinset_eq_empty_iff]
        rw [List.map_eq_nil_iff, List.filter_eq_nil_iff]
        intro pr hpr
        simp [hall pr hpr]
    · intro s hs tag
      rw [herr] at hs
      cases hs
      rw [List.mem_toFinset, List.mem_map]
      constructor
      · rintro ⟨pr, hmem, rfl⟩
        rcases List.mem_filter.mp hmem with ⟨hin, hviol⟩
        exact ⟨pr.2, by simpa using hin, hviol⟩
      · rintro ⟨r, hin, hviol⟩
        exact ⟨(tag, r), List.mem_filter.mpr ⟨hin, hviol⟩, rfl⟩

/-- Witness for C8: on the fixture constraint with tag counts {b, c} and
group size 2, `check` reports exactly the tag set {a}, and membership of
"a" in the error set matches the violated-range characterization. -/
theorem C8_check_characterization_witness :
    constraintFixture.check {"b", "c"} 2 = .error {"a"}
      ∧ ("a" ∈ ({"a"} : Finset Tag) ↔
          ∃ r, ("a", r) ∈ constraintFixture.ranges
            ∧ r.violated (Multiset.count "a" {"b", "c"}) 2 = true) := by
  have h : constraintFixture.check {"b", "c"} 2 = .error {"a"} := by
    norm_num +decide [constraintFixture, Constraint.check, Range.violated]
  exact ⟨h, (C8_check_characterization constraintFixture {"b", "c"} 2).2
    {"a"} h "a"⟩

/-- C4 (amended): for every action addressing a nonexistent group or member
through a `Position` or `Add`'s group index — `Move`'s `target_group` index
excluded — `simulate` returns `Failed [InvalidPosition]` and `act` fails
with `InvalidPosition` leaving the cache completely unchanged. -/
theorem C4_invalid_position_no_mutation (t : TableCache) (a : Action)
    (c : Condition) (h : invalidAddress t a) :
    t.simulate a c = some (.Failed [.InvalidPosition])
      ∧ t.act a c = (.error .InvalidPosition, t) := by
  cases a with
  | Add m gi =>
      have hg : t.groups[gi]? = none := h
      exact ⟨by simp [TableCache.simulate, hg], by simp [TableCache.act, hg]⟩
  | Remove p =>
      have hm : t.get_member p = none := h
      cases hg : t.groups[p.group_index]? with
      | none =>
          exact ⟨by simp [TableCache.simulate, hg],
            by simp [TableCache.act, hg]⟩
      | some g =>
          have hmi : g.members[p.member_index]? = none := by
            simpa [TableCache.get_member, hg] using hm
          refine ⟨?_, ?_⟩
          · simp [TableCache.simulate, hg, GroupCache.simulate_remove, hmi]
          · simp [TableCache.act, hg, GroupCache.remove, hmi]
  | Swap p1 p2 =>
      rcases h with h1 | h2
      · cases hm2 : t.get_member p2 with
        | none =>
            refine ⟨by simp [TableCache.simulate, h1], ?_⟩
            simp [TableCache.act, hm2]
        | some m2 =>
            refine ⟨by simp [TableCache.simulate, h1], ?_⟩
            cases hg1 : t.groups[p1.group_index]? with
            | none => simp [TableCache.act, hm2, hg1]
            | some g1 =>
                have hmi1 : g1.members[p1.member_index]? = none := by
                  simpa [TableCache.get_member, hg1] using h1
                simp [TableCache.act, hm2, hg1, GroupCache.swap, hmi1]
      · refine ⟨?_, by simp [TableCache.act, h2]⟩
        cases hm1 : t.get_member p1 with
        | none => simp [TableCache.simulate, hm1]
        | some m1 => simp [TableCache.simulate, hm1, h2]
  | Move p tg =>
      have hm : t.get_member p = none := h
      refine ⟨by simp [TableCache.simulate, hm], ?_⟩
      cases hg : t.groups[p.group_index]? with
      | none => simp [TableCache.act, hg]
      | some g =>
          have hmi : g.members[p.member_index]? = none := by
            simpa [TableCache.get_member, hg] using hm
          simp [TableCache.act, hg, GroupCache.remove, hmi]

/-- Witness for C4 (amended): `Remove ⟨0, 5⟩` addresses a nonexistent
member of the fixture's group 0, so `simulate` fails with
`InvalidPosition` and `act` returns the fixture unchanged. -/
theorem C4_invalid_position_no_mutation_witness :
    invalidAddress tablecacheFixture (.Remove ⟨0, 5⟩)
      ∧ tablecacheFixture.simulate (.Remove ⟨0, 5⟩) conditionFixture
          = some (.Failed [.InvalidPosition])
      ∧ tablecacheFixture.act (.Remove ⟨0, 5⟩) conditionFixture
          = (.error .InvalidPosition, tablecacheFixture) := by
  have h : invalidAddress tablecacheFixture (.Remove ⟨0, 5⟩) := by
    show tablecacheFixture.get_member ⟨0, 5⟩ = none
    simp [tablecacheFixture, TableCache.create, tableFixture,
      TableCache.get_member, GroupCache.create]
  have hc := C4_invalid_position_no_mutation tablecacheFixture
    (.Remove ⟨0, 5⟩) conditionFixture h
  exact ⟨h, hc.1, hc.2⟩

/-- C7 (amended): whenever `act` succeeds it returns the removed member for
`Remove` — `Ok(Some(member))` where the member is exactly the one at the
addressed position — and `Ok(None)` for `Add`, `Swap` and `Move` alike
(the `Move` arm drops the moved member from its `Ok`). -/
theorem C7_act_returned_member (t : TableCache) (a : Action) (c : Condition)
    (r : Option Member) (h : (t.act a c).1 = Except.ok r) :
    match a with
    | .Remove p => ∃ m, t.get_member p = some m ∧ r = some m
    | _ => r = none := by
  cases a with
  | Add m gi =>
      simp only [TableCache.act] at h
      split at h
      · simp at h
      · simp at h
        exact h.symm
  | Remove p =>
      cases hg : t.groups[p.group_index]? with
      | none => simp [TableCache.act, hg] at h
      | some g =>
          cases hmi : g.members[p.member_index]? with
          | none => simp [TableCache.act, hg, GroupCache.remove, hmi] at h
          | some mem =>
              have hr : r = some mem := by
                simp [TableCache.act, hg, GroupCache.remove, hmi] at h
                exact h.symm
              exact ⟨mem, by simp [TableCache.get_member, hg, hmi], hr⟩
  | Swap p1 p2 =>
      simp only [TableCache.act] at h
      split at h
      · simp at h
      · split at h
        · simp at h
        · split at h
          · simp at h
          · split at h
            · simp at h
            · split at h
              · simp at h
              · simp at h
                exact h.symm
  | Move p tg =>
      simp only [TableCache.act] at h
      split at h
      · simp at h
      · split at h
        · simp at h
        · split at h
          · simp at h
          · simp at h
            exact h.symm

/-- Witness for C7 (amended): the successful `act (Remove ⟨1, 1⟩)` on the
fixture returns `Ok(Some(member 4))` — `Some` of exactly the member at
position (1, 1). -/
theorem C7_act_returned_member_witness :
    (tablecacheFixture.act (.Remove ⟨1, 1⟩) conditionFixture).1
        = Except.ok (some ⟨4, {"a", "c"}⟩)
      ∧ ∃ m, tablecacheFixture.get_member ⟨1, 1⟩ = some m
          ∧ (some (⟨4, {"a", "c"}⟩ : Member) : Option Member) = some m := by
  have h : (tablecacheFixture.act (.Remove ⟨1, 1⟩) conditionFixture).1
      = Except.ok (some ⟨4, {"a", "c"}⟩) := by
    simp only [tablecacheFixture, TableCache.create, tableFixture,
      TableCache.act, List.map_cons, List.map_nil, GroupCache.create]
    norm_num [GroupCache.remove, Group.calc_score, pairScore,
      RelationPenalty.get_pair, penaltyFixture, tagTally, conditionFixture,
      constraintFixture, GroupCache.get_ids]
  exact ⟨h, C7_act_returned_member tablecacheFixture (.Remove ⟨1, 1⟩)
    conditionFixture (some ⟨4, {"a", "c"}⟩) h⟩

/-- `get_pair` is symmetric: the key `{a, b}` is unordered. -/
theorem RelationPenalty.get_pair_comm (p : RelationPenalty) (a b : Id) :
    p.get_pair a b = p.get_pair b a := by
  unfold RelationPenalty.get_pair
  rw [Finset.pair_comm]

/-- The sum of the two single-member swap evaluations over the same id set:
everything cancels except the self-pairs and the doubly-subtracted
exchanged pair. -/
theorem swap_filter_sum (S : Finset Id) (p : RelationPenalty) (a b : Id)
    (ha : a ∈ S) (hb : b ∈ S) :
    ((S.filter fun i => i ≠ a).sum fun i => p.get_pair b i - p.get_pair a i)
        + ((S.filter fun i => i ≠ b).sum fun i => p.get_pair a i - p.get_pair b i)
      = p.get_pair a a + p.get_pair b b - 2 * p.get_pair a b := by
  rw [Finset.filter_ne', Finset.filter_ne', Finset.sum_erase_eq_sub ha,
    Finset.sum_erase_eq_sub hb]
  have hz : (S.sum fun i => p.get_pair b i - p.get_pair a i)
      + (S.sum fun i => p.get_pair a i - p.get_pair b i) = 0 := by
    rw [← Finset.sum_add_distrib]
    simp
  have hc : p.get_pair b a = p.get_pair a b :=
    RelationPenalty.get_pair_comm p b a
  linarith [hz, hc]

/-- `simulate_swap` at a resolving index returns the filtered-sum score,
classified by the constraint check. -/
theorem GroupCache.simulate_swap_score (g : GroupCache) (i : Index)
    (m rm : Member) (c : Condition) (hm : g.members[i]? = some rm) :
    g.simulate_swap i m c
        = .ScoreDiff ((g.get_ids.filter fun x => x ≠ rm.id).sum
            fun x => c.penalty.get_pair m.id x - c.penalty.get_pair rm.id x)
      ∨ g.simulate_swap i m c
        = .UnsatisfiedScoreDiff ((g.get_ids.filter fun x => x ≠ rm.id).sum
            fun x => c.penalty.get_pair m.id x - c.penalty.get_pair rm.id x) := by
  cases hc : c.constraint.check (g.tagcounts + m.tags.val - rm.tags.val)
      g.members.length with
  | ok u => exact Or.inl (by simp [GroupCache.simulate_swap, hm, hc])
  | error e => exact Or.inr (by simp [GroupCache.simulate_swap, hm, hc])

/-- C6 (amended): for a `Swap` whose two positions resolve in the same
group at distinct indices (member ids distinct within the group),
`simulate` evaluates the action as the sum of two independent single-member
swap evaluations; the resulting delta is
`p(id1,id1) + p(id2,id2) - 2 p(id1,id2)`, not the group's from-scratch
penalty change from exchanging the two members (which is 0). -/
theorem C6_same_group_swap_double_counts (t : TableCache) (p1 p2 : Position)
    (c : Condition) (g : GroupCache) (m1 m2 : Member)
    (hgrp : p1.group_index = p2.group_index)
    (hig : t.groups[p1.group_index]? = some g)
    (hm1 : g.members[p1.member_index]? = some m1)
    (hm2 : g.members[p2.member_index]? = some m2) :
    ∃ r d, t.simulate (.Swap p1 p2) c = some r
      ∧ (r = .ScoreDiff d ∨ r = .UnsatisfiedScoreDiff d)
      ∧ d = c.penalty.get_pair m1.id m1.id + c.penalty.get_pair m2.id m2.id
          - 2 * c.penalty.get_pair m1.id m2.id := by
  have hig2 : t.groups[p2.group_index]? = some g := hgrp ▸ hig
  have hgm1 : t.get_member p1 = some m1 := by
    simp [TableCache.get_member, hig, hm1]
  have hgm2 : t.get_member p2 = some m2 := by
    simp [TableCache.get_member, hig2, hm2]
  have hmem1 : m1.id ∈ g.get_ids := by
    unfold GroupCache.get_ids
    rw [List.mem_toFinset]
    exact List.mem_map_of_mem Member.id (List.getElem?_mem hm1)
  have hmem2 : m2.id ∈ g.get_ids := by
    unfold GroupCache.get_ids
    rw [List.mem_toFinset]
    exact List.mem_map_of_mem Member.id (List.getElem?_mem hm2)
  have hsum := swap_filter_sum g.get_ids c.penalty m1.id m2.id hmem1 hmem2
  have hs1 := g.simulate_swap_score p1.member_index m2 m1 c hm1
  have hs2 := g.simulate_swap_score p2.member_index m1 m2 c hm2
  have hsim : t.simulate (.Swap p1 p2) c
      = ActionResult.combine (g.simulate_swap p1.member_index m2 c)
          (g.simulate_swap p2.member_index m1 c) := by
    simp [TableCache.simulate, hgm1, hgm2, hig, hig2]
  rcases hs1 with hs1 | hs1 <;> rcases hs2 with hs2 | hs2 <;>
      rw [hs1, hs2] at hsim
  · refine ⟨.ScoreDiff _, _, ?_, Or.inl rfl, rfl⟩
    rw [hsim]
    exact congrArg (fun z => some (ActionResult.ScoreDiff z)) hsum
  · refine ⟨.UnsatisfiedScoreDiff _, _, ?_, Or.inr rfl, rfl⟩
    rw [hsim]
    exact congrArg (fun z => some (ActionResult.UnsatisfiedScoreDiff z)) hsum
  · refine ⟨.UnsatisfiedScoreDiff _, _, ?_, Or.inr rfl, rfl⟩
    rw [hsim]
    exact congrArg (fun z => some (ActionResult.UnsatisfiedScoreDiff z))
      (by rw [add_comm]; exact hsum)
  · refine ⟨.UnsatisfiedScoreDiff _, _, ?_, Or.inr rfl, rfl⟩
    rw [hsim]
    exact congrArg (fun z => some (ActionResult.UnsatisfiedScoreDiff z)) hsum

/-- Witness for C6 (amended): the same-group swap of indices 0 and 1 in the
single-group fixture satisfies the hypotheses, so its simulated delta is
`p(0,0) + p(1,1) - 2 p(0,1) = -2`. -/
theorem C6_same_group_swap_double_counts_witness :
    oneGroupCache.groups[(0 : ℕ)]?
        = some ⟨[⟨0, ∅⟩, ⟨1, ∅⟩, ⟨2, ∅⟩], 0, 3⟩
      ∧ (∃ r d,
          oneGroupCache.simulate (.Swap ⟨0, 0⟩ ⟨0, 1⟩) noConstraintCondition
              = some r
            ∧ (r = .ScoreDiff d ∨ r = .UnsatisfiedScoreDiff d)
            ∧ d = noConstraintCondition.penalty.get_pair 0 0
                + noConstraintCondition.penalty.get_pair 1 1
                - 2 * noConstraintCondition.penalty.get_pair 0 1) := by
  have hig : oneGroupCache.groups[(0 : ℕ)]?
      = some ⟨[⟨0, ∅⟩, ⟨1, ∅⟩, ⟨2, ∅⟩], 0, 3⟩ := by
    simp only [oneGroupCache, TableCache.create, oneGroupTable, List.map_cons,
      List.map_nil, GroupCache.create]
    norm_num +decide [Group.calc_score, pairScore, RelationPenalty.get_pair,
      penaltyFixture, tagTally]
  exact ⟨hig, C6_same_group_swap_double_counts oneGroupCache ⟨0, 0⟩ ⟨0, 1⟩
    noConstraintCondition ⟨[⟨0, ∅⟩, ⟨1, ∅⟩, ⟨2, ∅⟩], 0, 3⟩ ⟨0, ∅⟩ ⟨1, ∅⟩ rfl hig
    rfl rfl⟩

/-- Reading a group's member list from the mapped view. -/
theorem map_members_getD (gs : List GroupCache) (gi : Index) (g : GroupCache)
    (h : gs[gi]? = some g) :
    (gs.map GroupCache.members).getD gi [] = g.members := by
  rw [List.getD_eq_getD_get?, List.get?_eq_getElem?, List.getElem?_map, h]
  rfl

/-- Removing at an in-bounds index and inserting back at the same slot is
an in-place replacement. -/
theorem insertIdx_eraseIdx_set (l : List Member) (i : ℕ) (m : Member)
    (h : i < l.length) : (l.eraseIdx i).insertIdx i m = l.set i m := by
  induction l generalizing i with
  | nil => simp at h
  | cons x xs ih =>
      cases i with
      | zero => rfl
      | succ n =>
          simp only [List.eraseIdx_cons_succ, List.insertIdx_succ_cons,
            List.set_cons_succ]
          exact congrArg (x :: ·) (ih n (by simpa using h))

/-- Successful `GroupCache.remove`: the index resolves, the removed member
is returned, and the member list is erased at the index. -/
theorem GroupCache.remove_ok (g : GroupCache) (i : Index) (c : Condition)
    (m : Member) (g' : GroupCache) (h : g.remove i c = .ok (m, g')) :
    g.members[i]? = some m ∧ g'.members = g.members.eraseIdx i := by
  cases hmi : g.members[i]? with
  | none => simp [GroupCache.remove, hmi] at h
  | some mem =>
      simp only [GroupCache.remove, hmi, Except.ok.injEq, Prod.mk.injEq] at h
      obtain ⟨h1, h2⟩ := h
      subst h1
      exact ⟨rfl, by rw [← h2]⟩

/-- Successful `GroupCache.swap`: the index resolves, the displaced member
is returned, and the new member takes its slot. -/
theorem GroupCache.swap_ok (g : GroupCache) (i : Index) (m : Member)
    (c : Condition) (rm : Member) (g' : GroupCache)
    (h : g.swap i m c = .ok (rm, g')) :
    g.members[i]? = some rm ∧ g'.members = g.members.set i m := by
  cases hmi : g.members[i]? with
  | none => simp [GroupCache.swap, hmi] at h
  | some mem =>
      simp only [GroupCache.swap, hmi, Except.ok.injEq, Prod.mk.injEq] at h
      obtain ⟨h1, h2⟩ := h
      subst h1
      refine ⟨rfl, ?_⟩
      rw [← h2]
      exact insertIdx_eraseIdx_set g.members i m
        (List.getElem?_eq_some.mp hmi).1

/-- C10: every successful `act` transforms the per-group member lists
exactly as the action describes — `Add` appends the given member to the
target group, `Remove` deletes and returns exactly the addressed member,
`Swap` exchanges the members at the two addressed positions, and `Move`
deletes the addressed member from its source group and appends that same
member to the target group — and groups not addressed by the action are
untouched (every transformation is a `List.set` at the addressed
indices). -/
theorem C10_act_transforms_members (t : TableCache) (a : Action)
    (c : Condition) (r : Option Member)
    (h : (t.act a c).1 = Except.ok r) :
    match a with
    | .Add m gi => membersOf (t.act a c).2 = appendAt (membersOf t) gi m
    | .Remove p => ∃ m, t.get_member p = some m ∧ r = some m
        ∧ membersOf (t.act a c).2 = removeAt (membersOf t) p
    | .Swap p1 p2 => ∃ m1 m2, t.get_member p1 = some m1
        ∧ t.get_member p2 = some m2
        ∧ membersOf (t.act a c).2 = setPos (setPos (membersOf t) p1 m2) p2 m1
    | .Move p tg => ∃ m, t.get_member p = some m
        ∧ membersOf (t.act a c).2
          = appendAt (removeAt (membersOf t) p) tg m := by
  cases a with
  | Add m gi =>
      cases hg : t.groups[gi]? with
      | none => simp [TableCache.act, hg] at h
      | some g =>
          show membersOf (t.act (.Add m gi) c).2 = appendAt (membersOf t) gi m
          simp only [TableCache.act, hg]
          show (t.groups.set gi (g.add m c)).map GroupCache.members = _
          unfold appendAt membersOf
          rw [List.map_set, map_members_getD t.groups gi g hg]
          rfl
  | Remove p =>
      cases hg : t.groups[p.group_index]? with
      | none => simp [TableCache.act, hg] at h
      | some g =>
          cases hrem : g.remove p.member_index c with
          | error e => simp [TableCache.act, hg, hrem] at h
          | ok mg =>
              obtain ⟨m0, g'⟩ := mg
              obtain ⟨hmi, hg'⟩ :=
                GroupCache.remove_ok g p.member_index c m0 g' hrem
              have hr : r = some m0 := by
                simp [TableCache.act, hg, hrem] at h
                exact h.symm
              refine ⟨m0, ?_, hr, ?_⟩
              · simp [TableCache.get_member, hg, hmi]
              · simp only [TableCache.act, hg, hrem]
                show (t.groups.set p.group_index g').map GroupCache.members = _
                unfold removeAt membersOf
                rw [List.map_set,
                  map_members_getD t.groups p.group_index g hg, hg']
  | Swap p1 p2 =>
      cases hm2 : t.get_member p2 with
      | none => simp [TableCache.act, hm2] at h
      | some member2 =>
          cases hg1 : t.groups[p1.group_index]? with
          | none => simp [TableCache.act, hm2, hg1] at h
          | some g1 =>
              cases hsw1 : g1.swap p1.member_index member2 c with
              | error e => simp [TableCache.act, hm2, hg1, hsw1] at h
              | ok mg1 =>
                  obtain ⟨member1, g1'⟩ := mg1
                  obtain ⟨hmi1, hg1'⟩ :=
                    GroupCache.swap_ok _ _ _ _ _ _ hsw1
                  cases hg2 :
                      (t.groups.set p1.group_index g1')[p2.group_index]? with
                  | none =>
                      simp [TableCache.act, hm2, hg1, hsw1, hg2] at h
                  | some g2 =>
                      cases hsw2 : g2.swap p2.member_index member1 c with
                      | error e =>
                          simp [TableCache.act, hm2, hg1, hsw1, hg2, hsw2] at h
                      | ok mg2 =>
                          obtain ⟨rm2, g2'⟩ := mg2
                          obtain ⟨hmi2, hg2'⟩ :=
                            GroupCache.swap_ok _ _ _ _ _ _ hsw2
                          refine ⟨member1, member2, ?_, hm2, ?_⟩
                          · simp [TableCache.get_member, hg1, hmi1]
                          · simp only [TableCache.act, hm2, hg1, hsw1, hg2,
                              hsw2]
                            show ((t.groups.set p1.group_index g1').set
                                p2.group_index g2').map GroupCache.members = _
                            unfold setPos membersOf
                            rw [List.map_set, List.map_set,
                              map_members_getD t.groups p1.group_index g1 hg1,
                              hg1']
                            congr 1
                            rw [hg2']
                            congr 1
                            have hM1 : (t.groups.map GroupCache.members).set
                                  p1.group_index
                                  (g1.members.set p1.member_index member2)
                                = (t.groups.set p1.group_index g1').map
                                  GroupCache.members := by
                              rw [List.map_set, hg1']
                            rw [hM1, map_members_getD _ _ _ hg2]
  | Move p tg =>
      cases hg : t.groups[p.group_index]? with
      | none => simp [TableCache.act, hg] at h
      | some gf =>
          cases hrem : gf.remove p.member_index c with
          | error e => simp [TableCache.act, hg, hrem] at h
          | ok mg =>
              obtain ⟨m0, gf'⟩ := mg
              obtain ⟨hmi, hgf'⟩ := GroupCache.remove_ok _ _ _ _ _ hrem
              cases hg2 : (t.groups.set p.group_index gf')[tg]? with
              | none => simp [TableCache.act, hg, hrem, hg2] at h
              | some gt =>
                  refine ⟨m0, ?_, ?_⟩
                  · simp [TableCache.get_member, hg, hmi]
                  · simp only [TableCache.act, hg, hrem, hg2]
                    show ((t.groups.set p.group_index gf').set tg
                        (gt.add m0 c)).map GroupCache.members = _
                    unfold appendAt removeAt membersOf
                    rw [List.map_set, List.map_set,
                      map_members_getD t.groups p.group_index gf hg, hgf']
                    congr 1
                    have hX : (t.groups.map GroupCache.members).set
                          p.group_index (gf.members.eraseIdx p.member_index)
                        = (t.groups.set p.group_index gf').map
                          GroupCache.members := by
                      rw [List.map_set, hgf']
                    rw [hX, map_members_getD _ _ _ hg2]
                    rfl

/-- Witness for C10: the successful same-group swap of positions (0,0) and
(0,1) on the single-group fixture returns `Ok(None)` and exchanges exactly
the two addressed members. -/
theorem C10_act_transforms_members_witness :
    (oneGroupCache.act (.Swap ⟨0, 0⟩ ⟨0, 1⟩) noConstraintCondition).1
        = Except.ok none
      ∧ ∃ m1 m2,
          oneGroupCache.get_member ⟨0, 0⟩ = some m1
          ∧ oneGroupCache.get_member ⟨0, 1⟩ = some m2
          ∧ membersOf
              (oneGroupCache.act (.Swap ⟨0, 0⟩ ⟨0, 1⟩) noConstraintCondition).2
            = setPos (setPos (membersOf oneGroupCache) ⟨0, 0⟩ m2)
                ⟨0, 1⟩ m1 := by
  have h : (oneGroupCache.act (.Swap ⟨0, 0⟩ ⟨0, 1⟩) noConstraintCondition).1
      = Except.ok none := by
    simp only [oneGroupCache, TableCache.create, oneGroupTable,
      TableCache.act, List.map_cons, List.map_nil, GroupCache.create]
    norm_num [GroupCache.swap, TableCache.get_member, Group.calc_score,
      pairScore, RelationPenalty.get_pair, penaltyFixture, tagTally,
      noConstraintCondition, GroupCache.get_ids]
  exact ⟨h, C10_act_transforms_members oneGroupCache
    (.Swap ⟨0, 0⟩ ⟨0, 1⟩) noConstraintCondition none h⟩

/-- Splitting the pairwise sum at one member: the pairs inside the rest,
the pairs of earlier members with `m`, and the pairs of `m` with later
members. -/
theorem pairScore_middle (p : RelationPenalty) (l1 l2 : List Member)
    (m : Member) :
    pairScore p (l1 ++ m :: l2)
      = pairScore p (l1 ++ l2)
        + (l1.map fun x => p.get_pair x.id m.id).sum
        + (l2.map fun x => p.get_pair m.id x.id).sum := by
  induction l1 with
  | nil => simp [pairScore]; ring
  | cons x t ih =>
      simp only [List.cons_append, pairScore, ih, List.append_eq,
        List.map_append, List.map_cons, List.sum_append, List.sum_cons]
      ring
  
/-- With symmetry, the two flanks of `pairScore_middle` merge into one sum
of `m` against everybody else. -/
theorem pairScore_middle_comm (p : RelationPenalty) (l1 l2 : List Member)
    (m : Member) :
    pairScore p (l1 ++ m :: l2)
      = pairScore p (l1 ++ l2)
        + ((l1 ++ l2).map fun x => p.get_pair m.id x.id).sum := by
  rw [pairScore_middle, List.map_append, List.sum_append]
  have hflip : (l1.map fun x => p.get_pair x.id m.id).sum
      = (l1.map fun x => p.get_pair m.id x.id).sum := by
    congr 1
    exact List.map_congr_left fun x _ =>
      RelationPenalty.get_pair_comm p x.id m.id
  rw [hflip]
  ring

/-- The tag tally splits off one member's tags. -/
theorem tagTally_middle (l1 l2 : List Member) (m : Member) :
    tagTally (l1 ++ m :: l2) = tagTally (l1 ++ l2) + m.tags.val := by
  unfold tagTally
  simp only [List.map_append, List.map_cons, List.sum_append, List.sum_cons]
  abel

/-- A `Finset` sum over the distinct ids of a member list is the list sum
over the members. -/
theorem sum_toFinset_ids (l : List Member) (f : Id → Score)
    (h : (l.map Member.id).Nodup) :
    ((l.map Member.id).toFinset.sum f) = (l.map fun m => f m.id).sum := by
  rw [List.sum_toFinset _ h, List.map_map]
  rfl

/-- Pointwise difference of list sums. -/
theorem list_sum_sub (l : List Member) (f g : Member → Score) :
    (l.map fun x => f x - g x).sum = (l.map f).sum - (l.map g).sum := by
  induction l with
  | nil => simp
  | cons x t ih => simp [ih]; ring

/-- A list with a resolving index decomposes as take / element / drop. -/
theorem eq_take_cons_drop (l : List Member) (i : ℕ) (m : Member)
    (h : l[i]? = some m) : l = l.take i ++ m :: l.drop (i + 1) := by
  obtain ⟨hlt, heq⟩ := List.getElem?_eq_some.mp h
  conv_lhs => rw [← List.take_append_drop i l]
  rw [List.drop_eq_getElem_cons hlt, heq]

/-- Inserting after the take prefix lands exactly at slot `i`. -/
theorem insertIdx_take_drop (l : List Member) (i : ℕ) (m : Member)
    (hi : i ≤ l.length) :
    (l.take i ++ l.drop (i + 1)).insertIdx i m
      = l.take i ++ m :: l.drop (i + 1) := by
  have hlen : (l.take i).length = i := by
    simp [List.length_take, Nat.min_eq_left hi]
  generalize l.take i = t at hlen ⊢
  generalize l.drop (i + 1) = d
  clear hi
  induction t generalizing i with
  | nil => simp at hlen; subst hlen; rfl
  | cons x xs ih =>
      cases i with
      | zero => simp at hlen
      | succ n =>
          simp only [List.cons_append, List.insertIdx_succ_cons]
          exact congrArg (x :: ·) (ih n (by simpa using hlen))

/-- One successful, id-fresh `GroupOp` preserves the invariant. -/
theorem applyOp_wf (g : GroupCache) (op : GroupOp) (c : Condition)
    (g' : GroupCache) (hwf : g.Wf c.penalty) (hf : freshOk g op = true)
    (h : applyOp g op c = some g') : g'.Wf c.penalty := by
  obtain ⟨hps, htc, hnd⟩ := hwf
  cases op with
  | add m =>
      have hfresh : m.id ∉ g.members.map Member.id := of_decide_eq_true hf
      simp only [applyOp, Option.some.injEq] at h
      subst h
      refine ⟨?_, ?_, ?_⟩
      · show g.penalty_score + _ = pairScore c.penalty (g.members ++ [m])
        have hmid := pairScore_middle_comm c.penalty g.members [] m
        rw [List.append_nil] at hmid
        rw [hmid, hps, GroupCache.get_ids, sum_toFinset_ids g.members _ hnd]
      · show g.tagcounts + m.tags.val = tagTally (g.members ++ [m])
        have hmid := tagTally_middle g.members [] m
        rw [List.append_nil] at hmid
        rw [hmid, htc]
      · show ((g.members ++ [m]).map Member.id).Nodup
        rw [List.map_append]
        refine (List.perm_append_singleton m.id _).nodup_iff.mpr ?_
        exact List.nodup_cons.mpr ⟨hfresh, hnd⟩
  | remove i =>
      cases hmi : g.members[i]? with
      | none => simp [applyOp, GroupCache.remove, hmi] at h
      | some mem =>
          simp only [applyOp, GroupCache.remove, hmi, Option.some.injEq] at h
          subst h
          have hsplit := eq_take_cons_drop g.members i mem hmi
          have herase : g.members.eraseIdx i
              = g.members.take i ++ g.members.drop (i + 1) :=
            List.eraseIdx_eq_take_drop_succ g.members i
          have hnd' : ((g.members.eraseIdx i).map Member.id).Nodup :=
            ((List.eraseIdx_sublist g.members i).map Member.id).nodup hnd
          have hkey : pairScore c.penalty g.members
              = pairScore c.penalty (g.members.eraseIdx i)
                + ((g.members.eraseIdx i).map
                    fun x => c.penalty.get_pair mem.id x.id).sum := by
            conv_lhs => rw [hsplit]
            rw [pairScore_middle_comm, ← herase]
          have hkey2 : tagTally g.members
              = tagTally (g.members.eraseIdx i) + mem.tags.val := by
            conv_lhs => rw [hsplit]
            rw [tagTally_middle, ← herase]
          refine ⟨?_, ?_, hnd'⟩
          · show g.penalty_score - _
              = pairScore c.penalty (g.members.eraseIdx i)
            rw [sum_toFinset_ids _ _ hnd', hps, hkey]
            ring
          · show g.tagcounts - mem.tags.val
              = tagTally (g.members.eraseIdx i)
            rw [htc, hkey2]
            exact add_tsub_cancel_right _ _
  | swap i m =>
      have hfresh : m.id ∉ (g.members.eraseIdx i).map Member.id :=
        of_decide_eq_true hf
      cases hmi : g.members[i]? with
      | none => simp [applyOp, GroupCache.swap, hmi] at h
      | some mem =>
          simp only [applyOp, GroupCache.swap, hmi, Option.some.injEq] at h
          subst h
          have hlt : i < g.members.length := (List.getElem?_eq_some.mp hmi).1
          have hsplit := eq_take_cons_drop g.members i mem hmi
          have herase : g.members.eraseIdx i
              = g.members.take i ++ g.members.drop (i + 1) :=
            List.eraseIdx_eq_take_drop_succ g.members i
          have hnd' : ((g.members.eraseIdx i).map Member.id).Nodup :=
            ((List.eraseIdx_sublist g.members i).map Member.id).nodup hnd
          have hins : (g.members.eraseIdx i).insertIdx i m
              = g.members.take i ++ m :: g.members.drop (i + 1) := by
            rw [herase]
            exact insertIdx_take_drop g.members i m (Nat.le_of_lt hlt)
          have hkey : pairScore c.penalty g.members
              = pairScore c.penalty (g.members.eraseIdx i)
                + ((g.members.eraseIdx i).map
                    fun x => c.penalty.get_pair mem.id x.id).sum := by
            conv_lhs => rw [hsplit]
            rw [pairScore_middle_comm, ← herase]
          have hkey2 : tagTally g.members
              = tagTally (g.members.eraseIdx i) + mem.tags.val := by
            conv_lhs => rw [hsplit]
            rw [tagTally_middle, ← herase]
          have hkey3 : pairScore c.penalty ((g.members.eraseIdx i).insertIdx i m)
              = pairScore c.penalty (g.members.eraseIdx i)
                + ((g.members.eraseIdx i).map
                    fun x => c.penalty.get_pair m.id x.id).sum := by
            rw [hins, pairScore_middle_comm, ← herase]
          have hkey4 : tagTally ((g.members.eraseIdx i).insertIdx i m)
              = tagTally (g.members.eraseIdx i) + m.tags.val := by
            rw [hins, tagTally_middle, ← herase]
          refine ⟨?_, ?_, ?_⟩
          · show g.penalty_score + _
              = pairScore c.penalty ((g.members.eraseIdx i).insertIdx i m)
            rw [sum_toFinset_ids _ _ hnd', hps, hkey, hkey3, list_sum_sub]
            ring
          · show g.tagcounts + m.tags.val - mem.tags.val
              = tagTally ((g.members.eraseIdx i).insertIdx i m)
            rw [htc, hkey2, hkey4, add_right_comm]
            exact add_tsub_cancel_right _ _
          · show List.Nodup (List.map Member.id
              ((g.members.eraseIdx i).insertIdx i m))
            have hperm : List.Perm ((g.members.eraseIdx i).insertIdx i m)
                (m :: g.members.eraseIdx i) := by
              apply List.perm_insertIdx
              rw [List.length_eraseIdx_of_lt hlt]
              exact Nat.le_pred_of_lt hlt
            refine ((hperm.map Member.id).nodup_iff).mpr ?_
            exact List.nodup_cons.mpr ⟨hfresh, hnd'⟩

/-- A successful, id-fresh sequence of `GroupOp`s preserves the
invariant. -/
theorem applyOps_wf (c : Condition) (ops : List GroupOp) :
    ∀ g g' : GroupCache, g.Wf c.penalty → freshSeq c g ops = true →
      applyOps g ops c = some g' → g'.Wf c.penalty := by
  induction ops with
  | nil =>
      intro g g' hwf _ h
      simp only [applyOps, Option.some.injEq] at h
      exact h ▸ hwf
  | cons op rest ih =>
      intro g g' hwf hfresh h
      simp only [applyOps] at h
      cases hop : applyOp g op c with
      | none => rw [hop] at h; cases h
      | some g1 =>
          rw [hop] at h
          simp only [freshSeq, hop, Bool.and_eq_true] at hfresh
          exact ih g1 g' (applyOp_wf g op c g1 hwf hfresh.1 hop) hfresh.2 h

/-- C2: starting from `GroupCache::create` on a group with distinct member
ids, after any successful sequence of `add` / `remove` / `swap` mutations
whose incoming members carry fresh ids, the cached `penalty_score` equals
the from-scratch pairwise `get_pair` sum over the current members and the
cached `tagcounts` equals the from-scratch tag tally. -/
theorem C2_groupcache_invariants (gr : Group) (c : Condition)
    (ops : List GroupOp) (g' : GroupCache)
    (hnd : (gr.members.map Member.id).Nodup)
    (hfresh : freshSeq c (GroupCache.create gr c.penalty) ops = true)
    (happly : applyOps (GroupCache.create gr c.penalty) ops c = some g') :
    g'.penalty_score = pairScore c.penalty g'.members
      ∧ g'.tagcounts = tagTally g'.members := by
  have hwf0 : (GroupCache.create gr c.penalty).Wf c.penalty :=
    ⟨rfl, rfl, hnd⟩
  have := applyOps_wf c ops (GroupCache.create gr c.penalty) g' hwf0
    hfresh happly
  exact ⟨this.1, this.2.1⟩

/-- Witness for C2: starting from a one-member group and adding a fresh
member 1, the resulting cache carries exactly the from-scratch score
(penalty (0,1) = 1) and tag tally {a, b}. -/
theorem C2_groupcache_invariants_witness :
    ((⟨[⟨0, {"a"}⟩]⟩ : Group).members.map Member.id).Nodup
      ∧ freshSeq conditionFixture
          (GroupCache.create ⟨[⟨0, {"a"}⟩]⟩ conditionFixture.penalty)
          [.add ⟨1, {"b"}⟩] = true
      ∧ applyOps (GroupCache.create ⟨[⟨0, {"a"}⟩]⟩ conditionFixture.penalty)
          [.add ⟨1, {"b"}⟩] conditionFixture
          = some ⟨[⟨0, {"a"}⟩, ⟨1, {"b"}⟩], {"a", "b"}, 1⟩
      ∧ ((⟨[⟨0, {"a"}⟩, ⟨1, {"b"}⟩], {"a", "b"}, 1⟩ : GroupCache).penalty_score
            = pairScore conditionFixture.penalty [⟨0, {"a"}⟩, ⟨1, {"b"}⟩]
          ∧ (⟨[⟨0, {"a"}⟩, ⟨1, {"b"}⟩], {"a", "b"}, 1⟩ : GroupCache).tagcounts
            = tagTally [⟨0, {"a"}⟩, ⟨1, {"b"}⟩]) := by
  have happly : applyOps
      (GroupCache.create ⟨[⟨0, {"a"}⟩]⟩ conditionFixture.penalty)
      [.add ⟨1, {"b"}⟩] conditionFixture
      = some ⟨[⟨0, {"a"}⟩, ⟨1, {"b"}⟩], {"a", "b"}, 1⟩ := by
    norm_num +decide [applyOps, applyOp, GroupCache.add, GroupCache.create,
      GroupCache.get_ids, tagTally, Group.calc_score, pairScore,
      RelationPenalty.get_pair, conditionFixture, penaltyFixture]
  refine ⟨by decide, by decide, happly, ?_⟩
  exact C2_groupcache_invariants ⟨[⟨0, {"a"}⟩]⟩ conditionFixture
    [.add ⟨1, {"b"}⟩] ⟨[⟨0, {"a"}⟩, ⟨1, {"b"}⟩], {"a", "b"}, 1⟩
    (by decide) (by decide) happly

end GroupShuffle
